import Mathlib

/-!
Verification of the parlance network core: wire codecs (serde_json over the
discovery and messaging message types), the peer registry, the discovery
listen step, outbound message sending, and nickname validation.

Strings are modelled at the character-list level (Rust `str` is a sequence of
unicode scalar values; `String` here wraps `List Char`).  Machine integers are
modelled as `Nat`/`Int` with explicit range conditions where the Rust types
(`u16`, `i64`) bound them.  Time (`std::time::Instant`) is modelled by an
explicit `now : Nat` parameter threaded through the operations that call
`Instant::now()`.
-/

namespace Parlance

/-! ## JSON text layer

Models `serde_json` encoding and decoding for the flat (unnested) JSON
objects this wire protocol exchanges.  The serializer mirrors
`serde_json::to_string`: compact output, string escapes for `"`, `\` and
control characters (`\b \t \n \f \r`, otherwise `\u00XX`), integers in
decimal.  The decoder mirrors `serde_json::from_slice` restricted to the
message grammar: one top-level object of string/number/bool/null fields
(every message of this protocol is such an object; nested values and
surrogate-pair escapes do not occur in them and are rejected rather than
parsed). -/

def digitChar (n : Nat) : Char :=
  Char.ofNat (48 + n)

/-- Lowercase hex digit, as `serde_json` emits in `\u00XX` escapes. -/
def hexDigitChar (n : Nat) : Char :=
  if n < 10 then Char.ofNat (48 + n) else Char.ofNat (87 + n)

def hexVal (c : Char) : Nat :=
  if 48 ≤ c.toNat ∧ c.toNat ≤ 57 then c.toNat - 48
  else if 97 ≤ c.toNat ∧ c.toNat ≤ 102 then c.toNat - 87
  else 0

def isHexDigit (c : Char) : Bool :=
  decide ((48 ≤ c.toNat ∧ c.toNat ≤ 57) ∨ (97 ≤ c.toNat ∧ c.toNat ≤ 102))

/-- Decimal digits of a natural number, most significant first (fueled so
that the definition computes by kernel reduction; `n` itself bounds the
number of divisions by 10). -/
def natToCharsAux : Nat → Nat → List Char
  | 0, _ => []
  | fuel + 1, n =>
    if n < 10 then [digitChar n]
    else natToCharsAux fuel (n / 10) ++ [digitChar (n % 10)]

def natToChars (n : Nat) : List Char :=
  natToCharsAux (n + 1) n

/-- Decimal rendering of an integer (as `serde_json` prints `i64`). -/
def intToChars (i : Int) : List Char :=
  if i < 0 then '-' :: natToChars i.natAbs else natToChars i.toNat

/-- JSON string escaping of one character, following `serde_json`. -/
def escapeChar (c : Char) : List Char :=
  if c = '"' then ['\\', '"']
  else if c = '\\' then ['\\', '\\']
  else if c = '\x08' then ['\\', 'b']
  else if c = '\x09' then ['\\', 't']
  else if c = '\x0a' then ['\\', 'n']
  else if c = '\x0c' then ['\\', 'f']
  else if c = '\x0d' then ['\\', 'r']
  else if c.toNat < 32 then
    ['\\', 'u', '0', '0', hexDigitChar (c.toNat / 16), hexDigitChar (c.toNat % 16)]
  else [c]

def escapeList (cs : List Char) : List Char :=
  cs.foldr (fun c acc => escapeChar c ++ acc) []

/-- JSON values (numbers restricted to integers, which is all this protocol
ever puts on the wire). -/
inductive Json where
  | null
  | bool (b : Bool)
  | num (n : Int)
  | str (s : List Char)
  | arr (elems : List Json)
  | obj (fields : List (List Char × Json))

/-- First field with the given key, as serde reads a struct field. -/
def lookupField (fields : List (List Char × Json)) (key : List Char) : Option Json :=
  (fields.find? (fun f => decide (f.1 = key))).map Prod.snd

/-- Parse the body of a JSON string literal (after the opening quote), up to
and including the closing quote.  Returns the unescaped characters and the
rest of the input. -/
def parseStringBody : List Char → Option (List Char × List Char)
  | [] => none
  | c :: rest =>
    if c = '"' then some ([], rest)
    else if c = '\\' then
      match rest with
      | [] => none
      | e :: rest2 =>
        if e = '"' then (parseStringBody rest2).map (fun p => ('"' :: p.1, p.2))
        else if e = '\\' then (parseStringBody rest2).map (fun p => ('\\' :: p.1, p.2))
        else if e = '/' then (parseStringBody rest2).map (fun p => ('/' :: p.1, p.2))
        else if e = 'b' then (parseStringBody rest2).map (fun p => ('\x08' :: p.1, p.2))
        else if e = 't' then (parseStringBody rest2).map (fun p => ('\x09' :: p.1, p.2))
        else if e = 'n' then (parseStringBody rest2).map (fun p => ('\x0a' :: p.1, p.2))
        else if e = 'f' then (parseStringBody rest2).map (fun p => ('\x0c' :: p.1, p.2))
        else if e = 'r' then (parseStringBody rest2).map (fun p => ('\x0d' :: p.1, p.2))
        else if e = 'u' then
          match rest2 with
          | h1 :: h2 :: h3 :: h4 :: rest3 =>
            if isHexDigit h1 && isHexDigit h2 && isHexDigit h3 && isHexDigit h4 then
              (parseStringBody rest3).map (fun p =>
                (Char.ofNat (((hexVal h1 * 16 + hexVal h2) * 16 + hexVal h3) * 16 + hexVal h4)
                  :: p.1, p.2))
            else none
          | _ => none
        else none
    else if c.toNat < 32 then none
    else (parseStringBody rest).map (fun p => (c :: p.1, p.2))

/-- Parse a run of decimal digits into a natural number. -/
def parseNatChars (cs : List Char) : Option (Nat × List Char) :=
  let digs := cs.takeWhile Char.isDigit
  if digs = [] then none
  else some (digs.foldl (fun a c => a * 10 + (c.toNat - 48)) 0, cs.dropWhile Char.isDigit)

/-- Parse one scalar JSON value (string, integer, boolean or null). -/
def parseScalar : List Char → Option (Json × List Char)
  | [] => none
  | c :: rest =>
    if c = '"' then (parseStringBody rest).map (fun p => (Json.str p.1, p.2))
    else if c = '-' then (parseNatChars rest).map (fun p => (Json.num (-(p.1 : Int)), p.2))
    else if c.isDigit then (parseNatChars (c :: rest)).map (fun p => (Json.num (p.1 : Int), p.2))
    else
      match c :: rest with
      | 't' :: 'r' :: 'u' :: 'e' :: r => some (Json.bool true, r)
      | 'f' :: 'a' :: 'l' :: 's' :: 'e' :: r => some (Json.bool false, r)
      | 'n' :: 'u' :: 'l' :: 'l' :: r => some (Json.null, r)
      | _ => none

/-- Parse one `"key":value` pair. -/
def parsePair (cs : List Char) : Option ((List Char × Json) × List Char) :=
  match cs with
  | '"' :: rest =>
    match parseStringBody rest with
    | some (key, rest2) =>
      match rest2 with
      | ':' :: rest3 => (parseScalar rest3).map (fun p => ((key, p.1), p.2))
      | _ => none
    | none => none
  | _ => none

/-- Parse a nonempty comma-separated field list up to and including the
closing brace.  Fueled; the caller passes the input length, which bounds the
number of fields. -/
def parseFieldsAux : Nat → List Char → Option (List (List Char × Json) × List Char)
  | 0, _ => none
  | fuel + 1, cs =>
    match parsePair cs with
    | none => none
    | some (field, rest) =>
      match rest with
      | ',' :: rest2 => (parseFieldsAux fuel rest2).map (fun p => (field :: p.1, p.2))
      | '\x7d' :: rest2 => some ([field], rest2)
      | _ => none

/-- Parse a complete JSON object datagram; the whole input must be consumed,
as `serde_json::from_slice` requires. -/
def parseJsonChars (cs : List Char) : Option Json :=
  match cs with
  | '\x7b' :: rest =>
    match rest with
    | '\x7d' :: rest2 => if rest2 = [] then some (Json.obj []) else none
    | _ =>
      match parseFieldsAux (cs.length + 1) rest with
      | some (fields, rest2) => if rest2 = [] then some (Json.obj fields) else none
      | none => none
  | _ => none

/-! ## Wire message types (src/network/discovery.rs, src/network/messaging.rs) -/

def typeKey : List Char := ['t', 'y', 'p', 'e']

def nicknameKey : List Char := ['n', 'i', 'c', 'k', 'n', 'a', 'm', 'e']

def tcpPortKey : List Char := ['t', 'c', 'p', '_', 'p', 'o', 'r', 't']

def announceTag : List Char := ['a', 'n', 'n', 'o', 'u', 'n', 'c', 'e']

def goodbyeTag : List Char := ['g', 'o', 'o', 'd', 'b', 'y', 'e']

def fromKey : List Char := ['f', 'r', 'o', 'm']

def contentKey : List Char := ['c', 'o', 'n', 't', 'e', 'n', 't']

def timestampKey : List Char := ['t', 'i', 'm', 'e', 's', 't', 'a', 'm', 'p']

/-- Discovery message: `Announce { nickname, tcp_port }` or `Goodbye { nickname }`.
`tcp_port` is a Rust `u16`; theorems carry the range bound explicitly. -/
inductive DiscoveryMessage where
  | announce (nickname : String) (tcp_port : Nat)
  | goodbye (nickname : String)
deriving DecidableEq

/-- TextMessage: `{ from, content, timestamp }`; `timestamp` is a Rust `i64`. -/
structure TextMessage where
  from_ : String
  content : String
  timestamp : Int
deriving DecidableEq

/-- Serde encoding of a `DiscoveryMessage`: internally tagged
(`#[serde(tag = "type", rename_all = "lowercase")]`), fields in declaration
order, compact. -/
def encodeDiscoveryChars : DiscoveryMessage → List Char
  | .announce nickname tcp_port =>
    '\x7b' :: '"' :: typeKey ++ '"' :: ':' :: '"' :: announceTag ++ '"' :: ',' ::
    '"' :: nicknameKey ++ '"' :: ':' :: '"' :: escapeList nickname.data ++ '"' :: ',' ::
    '"' :: tcpPortKey ++ '"' :: ':' :: natToChars tcp_port ++ ['\x7d']
  | .goodbye nickname =>
    '\x7b' :: '"' :: typeKey ++ '"' :: ':' :: '"' :: goodbyeTag ++ '"' :: ',' ::
    '"' :: nicknameKey ++ '"' :: ':' :: '"' :: escapeList nickname.data ++ ['"', '\x7d']

/-- Serde encoding of a `TextMessage`: plain struct, fields in declaration
order `from`, `content`, `timestamp`. -/
def encodeTextMessageChars (m : TextMessage) : List Char :=
  '\x7b' :: '"' :: fromKey ++ '"' :: ':' :: '"' :: escapeList m.from_.data ++ '"' :: ',' ::
  '"' :: contentKey ++ '"' :: ':' :: '"' :: escapeList m.content.data ++ '"' :: ',' ::
  '"' :: timestampKey ++ '"' :: ':' :: intToChars m.timestamp ++ ['\x7d']

/-- Deserialize a JSON number into a `u16`, as serde does: an integer in
`[0, 65535]`, anything else is an error. -/
def decodeU16 : Json → Option Nat
  | Json.num n => if 0 ≤ n ∧ n < 65536 then some n.toNat else none
  | _ => none

/-- Deserialize a JSON number into an `i64`. -/
def decodeI64 : Json → Option Int
  | Json.num n => if -(2 ^ 63) ≤ n ∧ n < 2 ^ 63 then some n else none
  | _ => none

/-- Serde deserialization of the internally tagged `DiscoveryMessage`: read
the `type` field, dispatch on the tag, reject unknown tags; field values are
looked up by name with their types checked. -/
def decodeDiscoveryJson : Json → Option DiscoveryMessage
  | Json.obj fields =>
    match lookupField fields typeKey with
    | some (Json.str tag) =>
      if tag = announceTag then
        match lookupField fields nicknameKey, lookupField fields tcpPortKey with
        | some (Json.str nick), some v =>
          (decodeU16 v).map (fun p => DiscoveryMessage.announce (String.mk nick) p)
        | _, _ => none
      else if tag = goodbyeTag then
        match lookupField fields nicknameKey with
        | some (Json.str nick) => some (DiscoveryMessage.goodbye (String.mk nick))
        | _ => none
      else none
    | _ => none
  | _ => none

/-- Serde deserialization of `TextMessage` from a JSON value. -/
def decodeTextMessageJson : Json → Option TextMessage
  | Json.obj fields =>
    match lookupField fields fromKey, lookupField fields contentKey,
        lookupField fields timestampKey with
    | some (Json.str f), some (Json.str c), some v =>
      (decodeI64 v).map (fun t => TextMessage.mk (String.mk f) (String.mk c) t)
    | _, _, _ => none
  | _ => none

/-- Model of `serde_json::from_slice::<DiscoveryMessage>` on a datagram. -/
def decodeDiscoveryChars (cs : List Char) : Option DiscoveryMessage :=
  (parseJsonChars cs).bind decodeDiscoveryJson

/-- Model of `serde_json::from_str::<TextMessage>` on one received line. -/
def decodeTextMessageChars (cs : List Char) : Option TextMessage :=
  (parseJsonChars cs).bind decodeTextMessageJson

/-! ## Peer model (src/core/peer.rs) -/

inductive IpAddr where
  | v4 (a b c d : Nat)
  | v6 (segs : List Nat)
deriving DecidableEq

structure SocketAddr where
  ip : IpAddr
  port : Nat
deriving DecidableEq

/-- Peer identity.  `PeerId::from_addr` derives a UUIDv5 from the formatted
socket address; formatting a socket address and the UUIDv5 derivation are
both deterministic functions of the address, so the derived identity is
modelled by the address value itself (hash collisions are outside the
model). -/
structure PeerId where
  key : SocketAddr
deriving DecidableEq

def PeerId.from_addr (addr : SocketAddr) : PeerId :=
  PeerId.mk addr

structure Peer where
  id : PeerId
  nickname : String
  addr : SocketAddr
  last_seen : Nat
deriving DecidableEq

/-- `Peer::new`: the id is derived from the address; `last_seen` is the
construction instant. -/
def Peer.new (nickname : String) (addr : SocketAddr) (now : Nat) : Peer :=
  Peer.mk (PeerId.from_addr addr) nickname addr now

/-- `Peer::refresh`: update `last_seen` to the current instant. -/
def Peer.refresh (p : Peer) (now : Nat) : Peer :=
  { p with last_seen := now }

/-- `Peer::is_timed_out`: elapsed time since `last_seen` strictly exceeds the
timeout.  `Instant::elapsed` is `now - last_seen` (saturating at zero). -/
def Peer.is_timed_out (p : Peer) (now timeout : Nat) : Bool :=
  decide (now - p.last_seen > timeout)

/-- The peer registry: `HashMap<PeerId, Peer>` modelled as an association
list with unique keys (iteration order of the hash map is unspecified; the
list order carries no meaning). -/
abbrev PeerRegistry := List (PeerId × Peer)

/-- `PeerRegistry::upsert`: refresh + overwrite nickname/addr when the key
exists, insert otherwise. -/
def PeerRegistry.upsert (reg : PeerRegistry) (peer : Peer) (now : Nat) : PeerRegistry :=
  if reg.any (fun e => decide (e.1 = peer.id)) then
    reg.map (fun e => if e.1 = peer.id then
      (e.1, { e.2.refresh now with nickname := peer.nickname, addr := peer.addr })
    else e)
  else reg ++ [(peer.id, peer)]

/-- `HashMap::remove` keyed by id: the removed record (if any) and the
remaining registry. -/
def PeerRegistry.removeById (reg : PeerRegistry) (id : PeerId) : Option Peer × PeerRegistry :=
  match reg.find? (fun e => decide (e.1 = id)) with
  | some e => (some e.2, reg.filter (fun e2 => decide (¬e2.1 = id)))
  | none => (none, reg)

/-- One removal step of the sweep loop: remove the entry with this id, and
push the removed record when one was present. -/
def sweepStep (acc : List Peer × PeerRegistry) (id : PeerId) : List Peer × PeerRegistry :=
  let res := PeerRegistry.removeById acc.2 id
  match res.1 with
  | some peer => (acc.1 ++ [peer], res.2)
  | none => (acc.1, res.2)

/-- `PeerRegistry::remove_timed_out`: collect the ids of timed-out entries,
then remove each collected id, accumulating the removed records. -/
def PeerRegistry.remove_timed_out (reg : PeerRegistry) (timeout now : Nat) :
    List Peer × PeerRegistry :=
  let timed_out := (reg.filter (fun e => e.2.is_timed_out now timeout)).map Prod.fst
  timed_out.foldl sweepStep ([], reg)

/-- `PeerRegistry::get_all`: snapshot of all records. -/
def PeerRegistry.get_all (reg : PeerRegistry) : List Peer :=
  reg.map Prod.snd

/-- `PeerRegistry::get`: point lookup by id. -/
def PeerRegistry.get (reg : PeerRegistry) (id : PeerId) : Option Peer :=
  (reg.find? (fun e => decide (e.1 = id))).map Prod.snd

/-- `PeerRegistry::count`. -/
def PeerRegistry.count (reg : PeerRegistry) : Nat :=
  reg.length

/-! ## Discovery listen step (src/network/discovery.rs, run, listen task) -/

/-- One iteration of the discovery listen loop on a received datagram:
decode it; on `Announce` with a nickname different from the local one,
upsert a peer reachable at (sender IP, announced tcp port); on a
self-announce, on `Goodbye`, and on a decode failure the registry is left
unchanged (the loop only logs and continues). -/
def listenStep (localNickname : String) (reg : PeerRegistry) (data : List Char)
    (src : SocketAddr) (now : Nat) : PeerRegistry :=
  match decodeDiscoveryChars data with
  | some (.announce nickname tcp_port) =>
    if nickname = localNickname then reg
    else
      let peer_addr : SocketAddr := SocketAddr.mk src.ip tcp_port
      reg.upsert (Peer.new nickname peer_addr now) now
  | some (.goodbye _) => reg
  | none => reg

/-! ## Messaging service (src/network/messaging.rs) -/

inductive ParlanceError where
  | network (e : String)
  | serialization (e : String)
  | peerNotFound (nickname : String)
  | channelSendError
deriving DecidableEq

inductive NetAction where
  | connect (addr : SocketAddr)
  | writeAll (data : List Char)
  | flush
deriving DecidableEq

inductive MessageEvent where
  | received (msg : TextMessage)
  | sent (to_ content : String)
  | sendError (to_ err : String)
deriving DecidableEq

/-- Environment oracle for the network effects of one `send_message` call:
the outcome of `TcpStream::connect` for each address, and the outcome of the
write/flush phase of the established stream. -/
structure NetEnv where
  connectResult : SocketAddr → Except String Unit
  writeResult : Except String Unit

/-- Result of one `send_message` call: the value returned to the caller, the
network actions attempted, the events emitted on the event channel, and the
registry after the call. -/
structure SendOutcome where
  result : Except ParlanceError Unit
  actions : List NetAction
  events : List MessageEvent
  registry : PeerRegistry

/-- `MessagingService::send_message`: look the nickname up in a registry
snapshot (`get_all`, a read); fail with `PeerNotFound` when absent; else
connect, serialize (total for this message type), write the line and a
newline, flush, and emit a `Sent` event.  Failures log, skip every event,
and return the error; the registry is only ever read. -/
def send_message (env : NetEnv) (reg : PeerRegistry) (localNickname : String)
    (to_nickname : String) (content : String) (now : Int) : SendOutcome :=
  let peers := reg.get_all
  match peers.find? (fun p => decide (p.nickname = to_nickname)) with
  | none => SendOutcome.mk (.error (.peerNotFound to_nickname)) [] [] reg
  | some peer =>
    match env.connectResult peer.addr with
    | .error e => SendOutcome.mk (.error (.network e)) [NetAction.connect peer.addr] [] reg
    | .ok _ =>
      let msg := TextMessage.mk localNickname content now
      let data := encodeTextMessageChars msg
      match env.writeResult with
      | .error e =>
        SendOutcome.mk (.error (.network e))
          [NetAction.connect peer.addr, NetAction.writeAll data] [] reg
      | .ok _ =>
        SendOutcome.mk (.ok ())
          [NetAction.connect peer.addr, NetAction.writeAll data,
            NetAction.writeAll ['\x0a'], NetAction.flush]
          [MessageEvent.sent to_nickname content] reg

/-- Strip one trailing carriage return, as the line reader does after
removing the newline delimiter. -/
def stripTrailingCR (l : List Char) : List Char :=
  match l.reverse with
  | '\x0d' :: t => t.reverse
  | _ => l

/-- The newline-delimited line reader of `handle_connection`
(`AsyncBufReadExt::lines`): split the stream at each newline byte, dropping
the delimiter and one trailing carriage return per delimited line; a final
unterminated segment is yielded as-is. -/
def readLinesAux : Nat → List Char → List (List Char)
  | 0, _ => []
  | _, [] => []
  | fuel + 1, cs =>
    let line := cs.takeWhile (fun c => !decide (c = '\x0a'))
    let rest := cs.dropWhile (fun c => !decide (c = '\x0a'))
    match rest with
    | [] => [line]
    | _ :: t => stripTrailingCR line :: readLinesAux fuel t

def readLines (cs : List Char) : List (List Char) :=
  readLinesAux (cs.length + 1) cs

/-! ## Nickname validation (src/core/validation.rs) -/

/-- Unicode White_Space property, as Rust char::is_whitespace. -/
def rustIsWhitespace (c : Char) : Bool :=
  decide (c.toNat = 0x09 ∨ c.toNat = 0x0a ∨ c.toNat = 0x0b ∨ c.toNat = 0x0c ∨ c.toNat = 0x0d
    ∨ c.toNat = 0x20 ∨ c.toNat = 0x85 ∨ c.toNat = 0xa0 ∨ c.toNat = 0x1680
    ∨ (0x2000 ≤ c.toNat ∧ c.toNat ≤ 0x200a) ∨ c.toNat = 0x2028 ∨ c.toNat = 0x2029
    ∨ c.toNat = 0x202f ∨ c.toNat = 0x205f ∨ c.toNat = 0x3000)

/-- Unicode general category Cc, as Rust char::is_control. -/
def rustIsControl (c : Char) : Bool :=
  decide (c.toNat ≤ 0x1f ∨ (0x7f ≤ c.toNat ∧ c.toNat ≤ 0x9f))

/-- Rust str::trim: remove leading and trailing whitespace. -/
def rustTrim (cs : List Char) : List Char :=
  ((cs.dropWhile rustIsWhitespace).reverse.dropWhile rustIsWhitespace).reverse

/-- UTF-8 encoded width of one scalar value (Rust char::len_utf8). -/
def utf8Width (c : Char) : Nat :=
  if c.toNat < 0x80 then 1 else if c.toNat < 0x800 then 2
  else if c.toNat < 0x10000 then 3 else 4

/-- Rust str::len: the UTF-8 byte length. -/
def byteLen (cs : List Char) : Nat :=
  (cs.map utf8Width).sum

inductive NicknameValidationError where
  | empty
  | tooShort
  | tooLong
  | whitespaceOnly
  | leadingOrTrailingWhitespace
  | invalidCharacters
  | containsNewline
deriving DecidableEq

def NicknameValidator.MIN_LENGTH : Nat := 1

def NicknameValidator.MAX_LENGTH : Nat := 32

/-- `NicknameValidator::validate`, clause for clause.  Lengths are
`str::len`, i.e. UTF-8 bytes. -/
def NicknameValidator.validate (nickname : String) :
    Except NicknameValidationError Unit :=
  if nickname.data.isEmpty then .error .empty
  else if byteLen nickname.data < NicknameValidator.MIN_LENGTH then .error .tooShort
  else if byteLen nickname.data > NicknameValidator.MAX_LENGTH then .error .tooLong
  else if rustTrim nickname.data = [] then .error .whitespaceOnly
  else if ¬nickname.data = rustTrim nickname.data then .error .leadingOrTrailingWhitespace
  else if nickname.data.any (fun c => decide (c = '\x0a' ∨ c = '\x0d')) then
    .error .containsNewline
  else if nickname.data.any rustIsControl then .error .invalidCharacters
  else .ok ()

/-! ## Concrete instances used by witnesses and counterexamples -/

/-- The datagram text of the decoding scenario. -/
def bobDatagram : String :=
  "\x7b\"type\":\"announce\",\"nickname\":\"Bob\",\"tcp_port\":9090\x7d"

def addrBob : SocketAddr :=
  SocketAddr.mk (IpAddr.v4 192 168 1 7) 9090

def peerBob : Peer :=
  Peer.new "Bob" addrBob 5

/-- A registry holding exactly the record for Bob. -/
def regOne : PeerRegistry :=
  [(peerBob.id, peerBob)]

def peerOld : Peer :=
  Peer.new "Old" (SocketAddr.mk (IpAddr.v4 10 0 0 9) 7000) 0

/-- A registry holding Bob (last seen at 5) and Old (last seen at 0). -/
def regTwo : PeerRegistry :=
  [(peerBob.id, peerBob), (peerOld.id, peerOld)]

/-- A network in which every connection attempt is refused. -/
def envRefuse : NetEnv :=
  NetEnv.mk (fun _ => Except.error "connection refused") (Except.ok ())

/-- A network in which connects and writes succeed. -/
def envAllOk : NetEnv :=
  NetEnv.mk (fun _ => Except.ok ()) (Except.ok ())

/-- Seventeen copies of a two-byte character: 17 characters, 34 UTF-8 bytes. -/
def umlautNickname : String :=
  "äääääääääääääääää"

/-! ## Step lemmas for the string-literal parser -/

theorem psb_quote (l : List Char) : parseStringBody ('"' :: l) = some ([], l) := by
  rw [parseStringBody.eq_def]
  simp

theorem psb_plain (c : Char) (l : List Char) (h1 : ¬c = '"') (h2 : ¬c = '\\')
    (h3 : ¬c.toNat < 32) :
    parseStringBody (c :: l) = (parseStringBody l).map (fun p => (c :: p.1, p.2)) := by
  rw [parseStringBody.eq_def]
  simp [h1, h2, h3]

theorem psb_esc_quote (l : List Char) :
    parseStringBody ('\\' :: '"' :: l) = (parseStringBody l).map (fun p => ('"' :: p.1, p.2)) := by
  rw [parseStringBody.eq_def]
  simp [(by decide : ¬('\\' : Char) = '"')]

theorem psb_esc_backslash (l : List Char) :
    parseStringBody ('\\' :: '\\' :: l) =
      (parseStringBody l).map (fun p => ('\\' :: p.1, p.2)) := by
  rw [parseStringBody.eq_def]
  simp [(by decide : ¬('\\' : Char) = '"')]

theorem psb_esc_b (l : List Char) :
    parseStringBody ('\\' :: 'b' :: l) =
      (parseStringBody l).map (fun p => ('\x08' :: p.1, p.2)) := by
  rw [parseStringBody.eq_def]
  simp [(by decide : ¬('\\' : Char) = '"'), (by decide : ¬('b' : Char) = '"'),
    (by decide : ¬('b' : Char) = '\\'), (by decide : ¬('b' : Char) = '/')]

theorem psb_esc_t (l : List Char) :
    parseStringBody ('\\' :: 't' :: l) =
      (parseStringBody l).map (fun p => ('\x09' :: p.1, p.2)) := by
  rw [parseStringBody.eq_def]
  simp [(by decide : ¬('\\' : Char) = '"'), (by decide : ¬('t' : Char) = '"'),
    (by decide : ¬('t' : Char) = '\\'), (by decide : ¬('t' : Char) = '/'),
    (by decide : ¬('t' : Char) = 'b')]

theorem psb_esc_n (l : List Char) :
    parseStringBody ('\\' :: 'n' :: l) =
      (parseStringBody l).map (fun p => ('\x0a' :: p.1, p.2)) := by
  rw [parseStringBody.eq_def]
  simp [(by decide : ¬('\\' : Char) = '"'), (by decide : ¬('n' : Char) = '"'),
    (by decide : ¬('n' : Char) = '\\'), (by decide : ¬('n' : Char) = '/'),
    (by decide : ¬('n' : Char) = 'b'), (by decide : ¬('n' : Char) = 't')]

theorem psb_esc_f (l : List Char) :
    parseStringBody ('\\' :: 'f' :: l) =
      (parseStringBody l).map (fun p => ('\x0c' :: p.1, p.2)) := by
  rw [parseStringBody.eq_def]
  simp [(by decide : ¬('\\' : Char) = '"'), (by decide : ¬('f' : Char) = '"'),
    (by decide : ¬('f' : Char) = '\\'), (by decide : ¬('f' : Char) = '/'),
    (by decide : ¬('f' : Char) = 'b'), (by decide : ¬('f' : Char) = 't'),
    (by decide : ¬('f' : Char) = 'n')]

theorem psb_esc_r (l : List Char) :
    parseStringBody ('\\' :: 'r' :: l) =
      (parseStringBody l).map (fun p => ('\x0d' :: p.1, p.2)) := by
  rw [parseStringBody.eq_def]
  simp [(by decide : ¬('\\' : Char) = '"'), (by decide : ¬('r' : Char) = '"'),
    (by decide : ¬('r' : Char) = '\\'), (by decide : ¬('r' : Char) = '/'),
    (by decide : ¬('r' : Char) = 'b'), (by decide : ¬('r' : Char) = 't'),
    (by decide : ¬('r' : Char) = 'n'), (by decide : ¬('r' : Char) = 'f')]

theorem psb_esc_u (h1 h2 h3 h4 : Char) (l : List Char)
    (hh : (isHexDigit h1 && isHexDigit h2 && isHexDigit h3 && isHexDigit h4) = true) :
    parseStringBody ('\\' :: 'u' :: h1 :: h2 :: h3 :: h4 :: l) =
      (parseStringBody l).map (fun p =>
        (Char.ofNat (((hexVal h1 * 16 + hexVal h2) * 16 + hexVal h3) * 16 + hexVal h4)
          :: p.1, p.2)) := by
  rw [parseStringBody.eq_def]
  simp [(by decide : ¬('\\' : Char) = '"'), (by decide : ¬('u' : Char) = '"'),
    (by decide : ¬('u' : Char) = '\\'), (by decide : ¬('u' : Char) = '/'),
    (by decide : ¬('u' : Char) = 'b'), (by decide : ¬('u' : Char) = 't'),
    (by decide : ¬('u' : Char) = 'n'), (by decide : ¬('u' : Char) = 'f'),
    (by decide : ¬('u' : Char) = 'r'), hh]

/-! ## Decimal digit lemmas -/

theorem digitChar_isDigit (d : Nat) (h : d < 10) : (digitChar d).isDigit = true := by
  interval_cases d <;> decide

theorem digitChar_toNat (d : Nat) (h : d < 10) : (digitChar d).toNat = 48 + d := by
  interval_cases d <;> decide

theorem digitChar_ne_quote (d : Nat) (h : d < 10) : ¬digitChar d = '"' := by
  interval_cases d <;> decide

theorem digitChar_ne_minus (d : Nat) (h : d < 10) : ¬digitChar d = '-' := by
  interval_cases d <;> decide

theorem natToCharsAux_fuel (fuel1 : Nat) : ∀ fuel2 n, n < fuel1 → n < fuel2 →
    natToCharsAux fuel1 n = natToCharsAux fuel2 n := by
  induction fuel1 with
  | zero => intro fuel2 n h1 _; omega
  | succ f ih =>
    intro fuel2 n h1 h2
    cases fuel2 with
    | zero => omega
    | succ f2 =>
      simp only [natToCharsAux]
      by_cases hn : n < 10
      · simp [hn]
      · rw [if_neg hn, if_neg hn]
        have hd : n / 10 < n := Nat.div_lt_self (by omega) (by omega)
        rw [ih f2 (n / 10) (by omega) (by omega)]

theorem natToChars_small (n : Nat) (h : n < 10) : natToChars n = [digitChar n] := by
  simp [natToChars, natToCharsAux, h]

theorem natToChars_large (n : Nat) (h : 10 ≤ n) :
    natToChars n = natToChars (n / 10) ++ [digitChar (n % 10)] := by
  have hd : n / 10 < n := Nat.div_lt_self (by omega) (by omega)
  show natToCharsAux (n + 1) n = _
  simp only [natToCharsAux]
  rw [if_neg (by omega)]
  rw [natToCharsAux_fuel n (n / 10 + 1) (n / 10) (by omega) (by omega)]
  rfl

theorem natToChars_mem (n : Nat) : ∀ c ∈ natToChars n, ∃ d, d < 10 ∧ c = digitChar d := by
  induction n using Nat.strong_induction_on with
  | _ n ih =>
    by_cases h : n < 10
    · rw [natToChars_small n h]
      intro c hc
      simp only [List.mem_singleton] at hc
      exact ⟨n, h, hc⟩
    · rw [natToChars_large n (by omega)]
      intro c hc
      rcases List.mem_append.mp hc with h1 | h1
      · exact ih (n / 10) (Nat.div_lt_self (by omega) (by omega)) c h1
      · simp only [List.mem_singleton] at h1
        exact ⟨n % 10, Nat.mod_lt n (by omega), h1⟩

theorem natToChars_ne_nil (n : Nat) : ¬natToChars n = [] := by
  by_cases h : n < 10
  · rw [natToChars_small n h]; simp
  · rw [natToChars_large n (by omega)]; simp

theorem natToChars_isDigit (n : Nat) : ∀ c ∈ natToChars n, c.isDigit = true := by
  intro c hc
  obtain ⟨d, hd, rfl⟩ := natToChars_mem n c hc
  exact digitChar_isDigit d hd

theorem natToChars_foldl (n : Nat) : ∀ a : Nat,
    (natToChars n).foldl (fun a c => a * 10 + (c.toNat - 48)) a
      = a * 10 ^ (natToChars n).length + n := by
  induction n using Nat.strong_induction_on with
  | _ n ih =>
    intro a
    by_cases h : n < 10
    · rw [natToChars_small n h]
      simp [digitChar_toNat n h]
    · have hd : n / 10 < n := Nat.div_lt_self (by omega) (by omega)
      rw [natToChars_large n (by omega)]
      rw [List.foldl_append, ih (n / 10) hd a]
      simp only [List.foldl_cons, List.foldl_nil, List.length_append, List.length_cons,
        List.length_nil]
      rw [digitChar_toNat (n % 10) (Nat.mod_lt n (by omega))]
      have h10 : 48 + n % 10 - 48 = n % 10 := by omega
      rw [h10]
      have hx : (a * 10 ^ (natToChars (n / 10)).length + n / 10) * 10 + n % 10
          = a * (10 ^ (natToChars (n / 10)).length * 10) + (n / 10 * 10 + n % 10) := by ring
      have hmod : n / 10 * 10 + n % 10 = n := by omega
      rw [hx, hmod]
      simp only [Nat.zero_add, pow_succ]

theorem hexDigitChar_isHex (m : Nat) (h : m < 16) : isHexDigit (hexDigitChar m) = true := by
  interval_cases m <;> decide

theorem hexVal_hexDigitChar (m : Nat) (h : m < 16) : hexVal (hexDigitChar m) = m := by
  interval_cases m <;> decide

theorem escapeList_nil : escapeList [] = [] := rfl

theorem escapeList_cons (c : Char) (cs : List Char) :
    escapeList (c :: cs) = escapeChar c ++ escapeList cs := rfl

/-- Unescaping inverts escaping: the parser consumes an escaped string up to
its closing quote and recovers the original characters. -/
theorem parseStringBody_escape (cs : List Char) (rest : List Char) :
    parseStringBody (escapeList cs ++ '"' :: rest) = some (cs, rest) := by
  induction cs with
  | nil => exact psb_quote rest
  | cons c cs ih =>
    have hsplit : escapeList (c :: cs) ++ '"' :: rest
        = escapeChar c ++ (escapeList cs ++ '"' :: rest) := by
      rw [escapeList_cons, List.append_assoc]
    rw [hsplit]
    by_cases h1 : c = '"'
    · subst h1
      rw [show escapeChar '"' = ['\\', '"'] from by decide]
      simp only [List.cons_append, List.nil_append]
      rw [psb_esc_quote, ih]
      rfl
    by_cases h2 : c = '\\'
    · subst h2
      rw [show escapeChar '\\' = ['\\', '\\'] from by decide]
      simp only [List.cons_append, List.nil_append]
      rw [psb_esc_backslash, ih]
      rfl
    by_cases h3 : c = '\x08'
    · subst h3
      rw [show escapeChar '\x08' = ['\\', 'b'] from by decide]
      simp only [List.cons_append, List.nil_append]
      rw [psb_esc_b, ih]
      rfl
    by_cases h4 : c = '\x09'
    · subst h4
      rw [show escapeChar '\x09' = ['\\', 't'] from by decide]
      simp only [List.cons_append, List.nil_append]
      rw [psb_esc_t, ih]
      rfl
    by_cases h5 : c = '\x0a'
    · subst h5
      rw [show escapeChar '\x0a' = ['\\', 'n'] from by decide]
      simp only [List.cons_append, List.nil_append]
      rw [psb_esc_n, ih]
      rfl
    by_cases h6 : c = '\x0c'
    · subst h6
      rw [show escapeChar '\x0c' = ['\\', 'f'] from by decide]
      simp only [List.cons_append, List.nil_append]
      rw [psb_esc_f, ih]
      rfl
    by_cases h7 : c = '\x0d'
    · subst h7
      rw [show escapeChar '\x0d' = ['\\', 'r'] from by decide]
      simp only [List.cons_append, List.nil_append]
      rw [psb_esc_r, ih]
      rfl
    by_cases h8 : c.toNat < 32
    · have hesc : escapeChar c
          = ['\\', 'u', '0', '0', hexDigitChar (c.toNat / 16), hexDigitChar (c.toNat % 16)] := by
        unfold escapeChar
        simp [h1, h2, h3, h4, h5, h6, h7, h8]
      rw [hesc]
      simp only [List.cons_append, List.nil_append]
      have hhex : (isHexDigit '0' && isHexDigit '0' && isHexDigit (hexDigitChar (c.toNat / 16))
          && isHexDigit (hexDigitChar (c.toNat % 16))) = true := by
        rw [hexDigitChar_isHex (c.toNat / 16) (by omega), hexDigitChar_isHex (c.toNat % 16) (by omega)]
        decide
      rw [psb_esc_u _ _ _ _ _ hhex, ih]
      have hval : ((hexVal '0' * 16 + hexVal '0') * 16 + hexVal (hexDigitChar (c.toNat / 16))) * 16
          + hexVal (hexDigitChar (c.toNat % 16)) = c.toNat := by
        rw [hexVal_hexDigitChar (c.toNat / 16) (by omega), hexVal_hexDigitChar (c.toNat % 16) (by omega)]
        rw [show hexVal '0' = 0 from by decide]
        omega
      simp only [Option.map_some']
      rw [hval, Char.ofNat_toNat]
    · have hesc : escapeChar c = [c] := by
        unfold escapeChar
        simp [h1, h2, h3, h4, h5, h6, h7, h8]
      rw [hesc]
      simp only [List.cons_append, List.nil_append]
      rw [psb_plain c _ h1 h2 h8, ih]
      rfl

/-! ## Number parsing round trip -/

theorem takeWhile_digits_append (l1 : List Char) (d : Char) (l2 : List Char)
    (h1 : ∀ c ∈ l1, c.isDigit = true) (hd : d.isDigit = false) :
    (l1 ++ d :: l2).takeWhile Char.isDigit = l1 ∧
      (l1 ++ d :: l2).dropWhile Char.isDigit = d :: l2 := by
  induction l1 with
  | nil => simp [List.takeWhile_cons, List.dropWhile_cons, hd]
  | cons c cs ih =>
    have hc := h1 c (by simp)
    obtain ⟨iht, ihd⟩ := ih (fun x hx => h1 x (by simp [hx]))
    simp [List.takeWhile_cons, List.dropWhile_cons, hc, iht, ihd]

theorem parseNatChars_natToChars (n : Nat) (d : Char) (hd : d.isDigit = false)
    (rest : List Char) :
    parseNatChars (natToChars n ++ d :: rest) = some (n, d :: rest) := by
  obtain ⟨ht, hdr⟩ := takeWhile_digits_append (natToChars n) d rest (natToChars_isDigit n) hd
  simp only [parseNatChars, ht, hdr]
  rw [if_neg (natToChars_ne_nil n)]
  rw [natToChars_foldl n 0]
  simp

theorem parseScalar_natToChars (n : Nat) (d : Char) (hd : d.isDigit = false)
    (rest : List Char) :
    parseScalar (natToChars n ++ d :: rest) = some (Json.num (n : Int), d :: rest) := by
  cases hnc : natToChars n with
  | nil => exact absurd hnc (natToChars_ne_nil n)
  | cons c0 cs0 =>
    obtain ⟨d0, hd0, hc0⟩ := natToChars_mem n c0 (by rw [hnc]; simp)
    subst hc0
    simp only [List.cons_append]
    rw [parseScalar.eq_def]
    simp only [if_neg (digitChar_ne_quote d0 hd0), if_neg (digitChar_ne_minus d0 hd0),
      digitChar_isDigit d0 hd0, if_pos]
    rw [show digitChar d0 :: (cs0 ++ d :: rest) = natToChars n ++ d :: rest from by
      rw [hnc]; simp]
    rw [parseNatChars_natToChars n d hd rest]
    rfl

theorem parseScalar_intToChars (i : Int) (d : Char) (hd : d.isDigit = false)
    (rest : List Char) :
    parseScalar (intToChars i ++ d :: rest) = some (Json.num i, d :: rest) := by
  by_cases hi : i < 0
  · have hneg : -((i.natAbs : Int)) = i := by omega
    have habs : -|i| = i := by rw [Int.abs_eq_natAbs]; omega
    rw [show intToChars i = '-' :: natToChars i.natAbs from by simp [intToChars, hi]]
    simp only [List.cons_append]
    rw [parseScalar.eq_def]
    simp [(by decide : ¬('-' : Char) = '"'), parseNatChars_natToChars i.natAbs d hd rest, hneg,
      habs]
  · rw [show intToChars i = natToChars i.toNat from by simp [intToChars, hi]]
    rw [parseScalar_natToChars i.toNat d hd rest]
    have : ((i.toNat : Nat) : Int) = i := by omega
    rw [this]

/-! ## Pair and object parsing round trip -/

theorem psb_noescape (key : List Char) (hk : escapeList key = key) (rest : List Char) :
    parseStringBody (key ++ '"' :: rest) = some (key, rest) := by
  conv_lhs => rw [← hk]
  exact parseStringBody_escape key rest

theorem parseScalar_str (s rest : List Char) :
    parseScalar ('"' :: (escapeList s ++ '"' :: rest)) = some (Json.str s, rest) := by
  rw [parseScalar.eq_def]
  simp [parseStringBody_escape s rest]

theorem parsePair_strval (key : List Char) (hk : escapeList key = key) (s rest : List Char) :
    parsePair ('"' :: (key ++ '"' :: ':' :: '"' :: (escapeList s ++ '"' :: rest)))
      = some ((key, Json.str s), rest) := by
  rw [parsePair.eq_def]
  simp [psb_noescape key hk, parseScalar_str s rest]

theorem parsePair_strtag (key : List Char) (hk : escapeList key = key) (v : List Char)
    (hv : escapeList v = v) (rest : List Char) :
    parsePair ('"' :: (key ++ '"' :: ':' :: '"' :: (v ++ '"' :: rest)))
      = some ((key, Json.str v), rest) := by
  conv_lhs => rw [← hv]
  exact parsePair_strval key hk v rest

theorem parsePair_natval (key : List Char) (hk : escapeList key = key) (n : Nat)
    (d : Char) (hd : d.isDigit = false) (rest : List Char) :
    parsePair ('"' :: (key ++ '"' :: ':' :: (natToChars n ++ d :: rest)))
      = some ((key, Json.num (n : Int)), d :: rest) := by
  rw [parsePair.eq_def]
  simp [psb_noescape key hk, parseScalar_natToChars n d hd rest]

theorem parsePair_intval (key : List Char) (hk : escapeList key = key) (i : Int)
    (d : Char) (hd : d.isDigit = false) (rest : List Char) :
    parsePair ('"' :: (key ++ '"' :: ':' :: (intToChars i ++ d :: rest)))
      = some ((key, Json.num i), d :: rest) := by
  rw [parsePair.eq_def]
  simp [psb_noescape key hk, parseScalar_intToChars i d hd rest]

theorem lookupField_cons (k k2 : List Char) (v : Json) (fs : List (List Char × Json)) :
    lookupField ((k2, v) :: fs) k = if k2 = k then some v else lookupField fs k := by
  by_cases h : k2 = k
  · subst h; simp [lookupField, List.find?]
  · simp [lookupField, List.find?, h]

theorem parseFieldsAux_announce (k : Nat) (nick : List Char) (port : Nat) :
    parseFieldsAux (k + 3)
      ('"' :: (typeKey ++ '"' :: ':' :: '"' :: (announceTag ++ '"' :: ',' ::
       '"' :: (nicknameKey ++ '"' :: ':' :: '"' :: (escapeList nick ++ '"' :: ',' ::
       '"' :: (tcpPortKey ++ '"' :: ':' :: (natToChars port ++ ['\x7d'])))))))
      = some ([(typeKey, Json.str announceTag), (nicknameKey, Json.str nick),
          (tcpPortKey, Json.num (port : Int))], []) := by
  simp only [parseFieldsAux,
    parsePair_strtag typeKey (by decide) announceTag (by decide),
    parsePair_strval nicknameKey (by decide) nick,
    parsePair_natval tcpPortKey (by decide) port '\x7d' (by decide),
    Option.map_some']

theorem parseFieldsAux_goodbye (k : Nat) (nick : List Char) :
    parseFieldsAux (k + 2)
      ('"' :: (typeKey ++ '"' :: ':' :: '"' :: (goodbyeTag ++ '"' :: ',' ::
       '"' :: (nicknameKey ++ '"' :: ':' :: '"' :: (escapeList nick ++ '"' :: '\x7d' :: [])))))
      = some ([(typeKey, Json.str goodbyeTag), (nicknameKey, Json.str nick)], []) := by
  simp only [parseFieldsAux,
    parsePair_strtag typeKey (by decide) goodbyeTag (by decide),
    parsePair_strval nicknameKey (by decide) nick,
    Option.map_some']

theorem parseFieldsAux_text (k : Nat) (f c : List Char) (ts : Int) :
    parseFieldsAux (k + 3)
      ('"' :: (fromKey ++ '"' :: ':' :: '"' :: (escapeList f ++ '"' :: ',' ::
       '"' :: (contentKey ++ '"' :: ':' :: '"' :: (escapeList c ++ '"' :: ',' ::
       '"' :: (timestampKey ++ '"' :: ':' :: (intToChars ts ++ ['\x7d'])))))))
      = some ([(fromKey, Json.str f), (contentKey, Json.str c),
          (timestampKey, Json.num ts)], []) := by
  simp only [parseFieldsAux,
    parsePair_strval fromKey (by decide) f,
    parsePair_strval contentKey (by decide) c,
    parsePair_intval timestampKey (by decide) ts '\x7d' (by decide),
    Option.map_some']

theorem parseJson_encode_announce (nick : String) (port : Nat) :
    parseJsonChars (encodeDiscoveryChars (.announce nick port))
      = some (Json.obj [(typeKey, Json.str announceTag), (nicknameKey, Json.str nick.data),
          (tcpPortKey, Json.num (port : Int))]) := by
  show parseJsonChars
      ('\x7b' :: '"' :: typeKey ++ '"' :: ':' :: '"' :: announceTag ++ '"' :: ',' ::
       '"' :: nicknameKey ++ '"' :: ':' :: '"' :: escapeList nick.data ++ '"' :: ',' ::
       '"' :: tcpPortKey ++ '"' :: ':' :: natToChars port ++ ['\x7d']) = _
  simp only [List.cons_append, List.append_assoc, List.nil_append]
  rw [parseJsonChars.eq_def]
  simp only [List.length_cons]
  rw [parseFieldsAux_announce]
  simp

theorem parseJson_encode_goodbye (nick : String) :
    parseJsonChars (encodeDiscoveryChars (.goodbye nick))
      = some (Json.obj [(typeKey, Json.str goodbyeTag), (nicknameKey, Json.str nick.data)]) := by
  show parseJsonChars
      ('\x7b' :: '"' :: typeKey ++ '"' :: ':' :: '"' :: goodbyeTag ++ '"' :: ',' ::
       '"' :: nicknameKey ++ '"' :: ':' :: '"' :: escapeList nick.data ++ ['"', '\x7d']) = _
  simp only [List.cons_append, List.append_assoc, List.nil_append]
  rw [parseJsonChars.eq_def]
  simp only [List.length_cons]
  rw [parseFieldsAux_goodbye]
  simp

theorem parseJson_encode_text (m : TextMessage) :
    parseJsonChars (encodeTextMessageChars m)
      = some (Json.obj [(fromKey, Json.str m.from_.data), (contentKey, Json.str m.content.data),
          (timestampKey, Json.num m.timestamp)]) := by
  show parseJsonChars
      ('\x7b' :: '"' :: fromKey ++ '"' :: ':' :: '"' :: escapeList m.from_.data ++ '"' :: ',' ::
       '"' :: contentKey ++ '"' :: ':' :: '"' :: escapeList m.content.data ++ '"' :: ',' ::
       '"' :: timestampKey ++ '"' :: ':' :: intToChars m.timestamp ++ ['\x7d']) = _
  simp only [List.cons_append, List.append_assoc, List.nil_append]
  rw [parseJsonChars.eq_def]
  simp only [List.length_cons]
  rw [parseFieldsAux_text]
  simp

theorem decodeDiscoveryJson_announce_obj (nick : List Char) (port : Nat) (hp : port < 65536) :
    decodeDiscoveryJson (Json.obj [(typeKey, Json.str announceTag),
        (nicknameKey, Json.str nick), (tcpPortKey, Json.num (port : Int))])
      = some (DiscoveryMessage.announce (String.mk nick) port) := by
  have h1 : (0 : Int) ≤ (port : Int) ∧ (port : Int) < 65536 := by omega
  have h2 : ((port : Int)).toNat = port := by omega
  rw [decodeDiscoveryJson.eq_def]
  simp [lookupField_cons, (by decide : ¬typeKey = nicknameKey),
    (by decide : ¬typeKey = tcpPortKey), (by decide : ¬nicknameKey = tcpPortKey),
    decodeU16, h1, h2]

theorem decodeDiscoveryJson_goodbye_obj (nick : List Char) :
    decodeDiscoveryJson (Json.obj [(typeKey, Json.str goodbyeTag),
        (nicknameKey, Json.str nick)])
      = some (DiscoveryMessage.goodbye (String.mk nick)) := by
  rw [decodeDiscoveryJson.eq_def]
  simp [lookupField_cons, (by decide : ¬typeKey = nicknameKey),
    (by decide : ¬goodbyeTag = announceTag)]

theorem decodeTextMessageJson_obj (f c : List Char) (ts : Int)
    (hts : -(2 ^ 63) ≤ ts ∧ ts < 2 ^ 63) :
    decodeTextMessageJson (Json.obj [(fromKey, Json.str f), (contentKey, Json.str c),
        (timestampKey, Json.num ts)])
      = some (TextMessage.mk (String.mk f) (String.mk c) ts) := by
  rw [decodeTextMessageJson.eq_def]
  simp [lookupField_cons, (by decide : ¬fromKey = contentKey),
    (by decide : ¬fromKey = timestampKey), (by decide : ¬contentKey = timestampKey),
    decodeI64, hts]
  omega

set_option maxRecDepth 4096 in
/-- Round trip for `Announce`: encode then decode is the identity. -/
theorem decode_encode_announce (nick : String) (port : Nat) (hp : port < 65536) :
    decodeDiscoveryChars (encodeDiscoveryChars (.announce nick port))
      = some (.announce nick port) := by
  unfold decodeDiscoveryChars
  rw [parseJson_encode_announce, Option.some_bind]
  exact decodeDiscoveryJson_announce_obj nick.data port hp

set_option maxRecDepth 4096 in
/-- Round trip for `Goodbye`: encode then decode is the identity. -/
theorem decode_encode_goodbye (nick : String) :
    decodeDiscoveryChars (encodeDiscoveryChars (.goodbye nick)) = some (.goodbye nick) := by
  unfold decodeDiscoveryChars
  rw [parseJson_encode_goodbye, Option.some_bind]
  exact decodeDiscoveryJson_goodbye_obj nick.data

set_option maxRecDepth 4096 in
/-- Round trip for `TextMessage`: encode then decode preserves all fields. -/
theorem decode_encode_text (m : TextMessage) (hts : -(2 ^ 63) ≤ m.timestamp ∧ m.timestamp < 2 ^ 63) :
    decodeTextMessageChars (encodeTextMessageChars m) = some m := by
  unfold decodeTextMessageChars
  rw [parseJson_encode_text, Option.some_bind]
  exact decodeTextMessageJson_obj m.from_.data m.content.data m.timestamp hts

theorem find?_key_append (pre : PeerRegistry) (e : PeerId × Peer) (rest : PeerRegistry)
    (hpre : ∀ x ∈ pre, ¬x.1 = e.1) :
    (pre ++ e :: rest).find? (fun x => decide (x.1 = e.1)) = some e := by
  induction pre with
  | nil => simp [List.find?_cons]
  | cons a pre ih =>
    have ha : (decide (a.1 = e.1)) = false := by simp [hpre a (by simp)]
    simp only [List.cons_append, List.find?_cons, ha]
    exact ih (fun x hx => hpre x (by simp [hx]))

theorem filter_ne_key (l : PeerRegistry) (id : PeerId) (h : ∀ x ∈ l, ¬x.1 = id) :
    l.filter (fun x => decide (¬x.1 = id)) = l := by
  induction l with
  | nil => rfl
  | cons a l ih =>
    have ha := h a (by simp)
    simp only [List.filter_cons]
    rw [if_pos (by simp [ha])]
    rw [ih (fun x hx => h x (by simp [hx]))]

theorem removeById_found (pre : PeerRegistry) (e : PeerId × Peer) (rest : PeerRegistry)
    (hpre : ∀ x ∈ pre, ¬x.1 = e.1) (hrest : ∀ x ∈ rest, ¬x.1 = e.1) :
    PeerRegistry.removeById (pre ++ e :: rest) e.1 = (some e.2, pre ++ rest) := by
  unfold PeerRegistry.removeById
  rw [find?_key_append pre e rest hpre]
  rw [List.filter_append, List.filter_cons]
  rw [if_neg (by simp)]
  rw [filter_ne_key pre e.1 hpre, filter_ne_key rest e.1 hrest]

theorem nodup_key_split (pre : PeerRegistry) (e : PeerId × Peer) (rest : PeerRegistry)
    (h : ((pre ++ e :: rest).map Prod.fst).Nodup) :
    (∀ x ∈ pre, ¬x.1 = e.1) ∧ (∀ x ∈ rest, ¬x.1 = e.1)
      ∧ ((pre ++ rest).map Prod.fst).Nodup := by
  rw [List.map_append, List.map_cons] at h
  have h1 := (List.nodup_append.mp h).1
  have hcons := (List.nodup_append.mp h).2.1
  have h4 := (List.nodup_append.mp h).2.2
  have h2 : e.1 ∉ rest.map Prod.fst := (List.nodup_cons.mp hcons).1
  have h3 : (rest.map Prod.fst).Nodup := (List.nodup_cons.mp hcons).2
  refine ⟨?_, ?_, ?_⟩
  · intro x hx heq
    exact h4 (List.mem_map_of_mem Prod.fst hx) (by simp [heq])
  · intro x hx heq
    exact h2 (heq ▸ List.mem_map_of_mem Prod.fst hx)
  · rw [List.map_append]
    exact List.nodup_append.mpr ⟨h1, h3, fun _ ha hb => h4 ha (List.mem_cons_of_mem _ hb)⟩



theorem sweep_fold (q : PeerId × Peer → Bool) :
    ∀ (reg2 pre : PeerRegistry) (acc : List Peer),
      ((pre ++ reg2).map Prod.fst).Nodup →
      List.foldl sweepStep (acc, pre ++ reg2) ((reg2.filter q).map Prod.fst)
        = (acc ++ (reg2.filter q).map Prod.snd, pre ++ reg2.filter (fun e => !q e)) := by
  intro reg2
  induction reg2 with
  | nil => intro pre acc h; simp
  | cons e rest ih =>
    intro pre acc h
    obtain ⟨hpre, hrest, hnd⟩ := nodup_key_split pre e rest h
    by_cases hq : q e = true
    · simp only [List.filter_cons, hq, if_true, List.map_cons, List.foldl_cons,
        Bool.not_true, Bool.false_eq_true, if_false]
      have hstep : sweepStep (acc, pre ++ e :: rest) e.1 = (acc ++ [e.2], pre ++ rest) := by
        unfold sweepStep
        rw [removeById_found pre e rest hpre hrest]
      rw [hstep]
      rw [ih pre (acc ++ [e.2]) hnd]
      simp
    · have hq2 : q e = false := by simpa using hq
      simp only [List.filter_cons, hq2, Bool.false_eq_true, if_false, Bool.not_false, if_true]
      have hsh : pre ++ e :: rest = (pre ++ [e]) ++ rest := by simp
      rw [hsh]
      rw [ih (pre ++ [e]) acc (by rw [← hsh]; exact h)]
      simp

/-- Characterization of the sweep: with unique keys (the `HashMap`
invariant), `remove_timed_out` returns exactly the timed-out records and
keeps exactly the others, untouched. -/
theorem remove_timed_out_spec (reg : PeerRegistry) (timeout now : Nat)
    (hnd : (reg.map Prod.fst).Nodup) :
    reg.remove_timed_out timeout now
      = ((reg.filter (fun e => e.2.is_timed_out now timeout)).map Prod.snd,
         reg.filter (fun e => !e.2.is_timed_out now timeout)) := by
  unfold PeerRegistry.remove_timed_out
  have h := sweep_fold (fun e => e.2.is_timed_out now timeout) reg [] [] (by simpa using hnd)
  simpa using h

theorem find?_append_none {α : Type} (l1 l2 : List α) (pred : α → Bool)
    (h : l1.find? pred = none) : (l1 ++ l2).find? pred = l2.find? pred := by
  induction l1 with
  | nil => rfl
  | cons a l ih =>
    rw [List.find?_cons] at h
    cases ha : pred a with
    | true => rw [ha] at h; simp at h
    | false =>
      rw [ha] at h
      simp only [List.cons_append, List.find?_cons, ha]
      exact ih h

/-- The update function `upsert` applies to each matching entry. -/
def upsertFn (p : Peer) (now : Nat) (e : PeerId × Peer) : PeerId × Peer :=
  if e.1 = p.id then
    (e.1, { e.2.refresh now with nickname := p.nickname, addr := p.addr })
  else e

theorem upsert_eq_map (reg : PeerRegistry) (p : Peer) (now : Nat)
    (hex : reg.any (fun e => decide (e.1 = p.id)) = true) :
    reg.upsert p now = reg.map (upsertFn p now) := by
  unfold PeerRegistry.upsert
  rw [if_pos hex]
  rfl

theorem upsert_eq_append (reg : PeerRegistry) (p : Peer) (now : Nat)
    (hab : ∀ e ∈ reg, ¬e.1 = p.id) :
    reg.upsert p now = reg ++ [(p.id, p)] := by
  unfold PeerRegistry.upsert
  rw [if_neg]
  simp only [List.any_eq_true, decide_eq_true_eq]
  rintro ⟨e, he, heq⟩
  exact hab e he heq

theorem get_upsert (reg : PeerRegistry) (p : Peer) (now : Nat) :
    (reg.upsert p now).get p.id
      = some (match reg.get p.id with
          | some old => Peer.mk old.id p.nickname p.addr now
          | none => p) := by
  induction reg with
  | nil =>
    rw [upsert_eq_append [] p now (by simp)]
    simp [PeerRegistry.get, List.find?_cons]
  | cons e rest ih =>
    by_cases he : e.1 = p.id
    · rw [upsert_eq_map (e :: rest) p now (by simp [List.any_cons, he])]
      simp only [List.map_cons]
      unfold PeerRegistry.get
      rw [List.find?_cons, List.find?_cons]
      have h1 : (decide ((upsertFn p now e).1 = p.id)) = true := by
        simp [upsertFn, he]
      have h2 : (decide (e.1 = p.id)) = true := by simp [he]
      rw [h1, h2]
      simp [upsertFn, he, Peer.refresh]
    · by_cases hr : rest.any (fun x => decide (x.1 = p.id)) = true
      · rw [upsert_eq_map (e :: rest) p now (by simp [List.any_cons, hr])]
        simp only [List.map_cons]
        unfold PeerRegistry.get
        rw [List.find?_cons, List.find?_cons]
        have h1 : (decide ((upsertFn p now e).1 = p.id)) = false := by
          simp [upsertFn, he]
        have h2 : (decide (e.1 = p.id)) = false := by simp [he]
        rw [h1, h2]
        have ihh := ih
        rw [upsert_eq_map rest p now hr] at ihh
        unfold PeerRegistry.get at ihh
        exact ihh
      · have hab : ∀ x ∈ e :: rest, ¬x.1 = p.id := by
          intro x hx
          rcases List.mem_cons.mp hx with rfl | hx2
          · exact he
          · intro heq
            rw [List.any_eq_true] at hr
            exact hr ⟨x, hx2, by simp [heq]⟩
        rw [upsert_eq_append (e :: rest) p now hab]
        unfold PeerRegistry.get
        have hnone : (e :: rest).find? (fun x => decide (x.1 = p.id)) = none := by
          rw [List.find?_eq_none]
          intro x hx
          simp [hab x hx]
        rw [find?_append_none _ _ _ hnone, hnone]
        simp [List.find?_cons]


theorem upsertFn_idem (p : Peer) (now : Nat) :
    ∀ e, upsertFn p now (upsertFn p now e) = upsertFn p now e := by
  intro e
  by_cases he : e.1 = p.id
  · simp [upsertFn, he, Peer.refresh]
  · simp [upsertFn, he]

theorem any_key_map_upsertFn (reg : PeerRegistry) (p : Peer) (now : Nat) :
    (reg.map (upsertFn p now)).any (fun e => decide (e.1 = p.id))
      = reg.any (fun e => decide (e.1 = p.id)) := by
  induction reg with
  | nil => rfl
  | cons e rest ih =>
    simp only [List.map_cons, List.any_cons, ih]
    congr 1
    by_cases he : e.1 = p.id <;> simp [upsertFn, he]

theorem upsert_idem (reg : PeerRegistry) (p : Peer) (now : Nat) (hl : p.last_seen = now) :
    (reg.upsert p now).upsert p now = reg.upsert p now := by
  by_cases hex : reg.any (fun e => decide (e.1 = p.id)) = true
  · rw [upsert_eq_map reg p now hex]
    rw [upsert_eq_map _ p now (by rw [any_key_map_upsertFn]; exact hex)]
    rw [List.map_map]
    exact List.map_congr_left (fun e _ => upsertFn_idem p now e)
  · have hab : ∀ e ∈ reg, ¬e.1 = p.id := by
      intro e he heq
      rw [List.any_eq_true] at hex
      exact hex ⟨e, he, by simp [heq]⟩
    rw [upsert_eq_append reg p now hab]
    rw [upsert_eq_map _ p now (by simp)]
    rw [List.map_append]
    have h1 : reg.map (upsertFn p now) = reg := by
      conv_rhs => rw [← List.map_id reg]
      apply List.map_congr_left
      intro e he
      simp [upsertFn, hab e he]
    have h2 : upsertFn p now (p.id, p) = (p.id, p) := by
      cases p with
      | mk pid pnick paddr plast =>
        simp only [Peer.mk.injEq] at hl ⊢
        simp [upsertFn, Peer.refresh, hl]
    rw [h1]
    simp [h2]

theorem upsert_same_addr_count (a : SocketAddr) (n n2 : String) (t1 t2 : Nat) :
    ((PeerRegistry.upsert [] (Peer.new n a t1) t1).upsert (Peer.new n2 a t2) t2).length = 1 := by
  simp [PeerRegistry.upsert, Peer.new, PeerId.from_addr]

theorem upsert_distinct_addr_count (a a2 : SocketAddr) (n n2 : String) (t1 t2 : Nat)
    (ha : ¬a = a2) :
    ((PeerRegistry.upsert [] (Peer.new n a t1) t1).upsert (Peer.new n2 a2 t2) t2).length = 2 := by
  simp [PeerRegistry.upsert, Peer.new, PeerId.from_addr, PeerId.mk.injEq, ha]


theorem hexDigitChar_noNL (m : Nat) (h : m < 16) :
    (!decide (hexDigitChar m = '\x0a')) = true := by
  interval_cases m <;> decide

theorem escapeChar_noNL (c : Char) :
    (escapeChar c).all (fun x => !decide (x = '\x0a')) = true := by
  by_cases h1 : c = '"'
  · subst h1; decide
  by_cases h2 : c = '\\'
  · subst h2; decide
  by_cases h3 : c = '\x08'
  · subst h3; decide
  by_cases h4 : c = '\x09'
  · subst h4; decide
  by_cases h5 : c = '\x0a'
  · subst h5; decide
  by_cases h6 : c = '\x0c'
  · subst h6; decide
  by_cases h7 : c = '\x0d'
  · subst h7; decide
  by_cases h8 : c.toNat < 32
  · have hesc : escapeChar c
        = ['\\', 'u', '0', '0', hexDigitChar (c.toNat / 16), hexDigitChar (c.toNat % 16)] := by
      unfold escapeChar
      simp [h1, h2, h3, h4, h5, h6, h7, h8]
    rw [hesc]
    simp only [List.all_cons, List.all_nil,
      hexDigitChar_noNL (c.toNat / 16) (by omega), hexDigitChar_noNL (c.toNat % 16) (by omega)]
    decide
  · have hesc : escapeChar c = [c] := by
      unfold escapeChar
      simp [h1, h2, h3, h4, h5, h6, h7, h8]
    rw [hesc]
    simp [h5]

theorem escapeList_noNL (cs : List Char) :
    (escapeList cs).all (fun x => !decide (x = '\x0a')) = true := by
  induction cs with
  | nil => rfl
  | cons c cs ih =>
    rw [escapeList_cons, List.all_append]
    rw [escapeChar_noNL c, ih]
    rfl

theorem natToChars_noNL (n : Nat) :
    (natToChars n).all (fun x => !decide (x = '\x0a')) = true := by
  rw [List.all_eq_true]
  intro x hx
  obtain ⟨d, hd, rfl⟩ := natToChars_mem n x hx
  have ht := digitChar_toNat d hd
  simp only [Bool.not_eq_true']
  rw [decide_eq_false_iff_not]
  intro he
  rw [he] at ht
  simp at ht
  omega

theorem intToChars_noNL (i : Int) :
    (intToChars i).all (fun x => !decide (x = '\x0a')) = true := by
  unfold intToChars
  by_cases hi : i < 0
  · simp only [hi, if_true, List.all_cons, natToChars_noNL]
    decide
  · simp only [hi, if_false, natToChars_noNL]

theorem encodeText_noNL (m : TextMessage) :
    (encodeTextMessageChars m).all (fun x => !decide (x = '\x0a')) = true := by
  simp [encodeTextMessageChars, fromKey, contentKey, timestampKey, List.all_append,
    List.all_cons, escapeList_noNL, intToChars_noNL]


theorem takeWhile_append_all (p : Char → Bool) (l1 : List Char) (d : Char) (l2 : List Char)
    (h1 : ∀ c ∈ l1, p c = true) (hd : p d = false) :
    (l1 ++ d :: l2).takeWhile p = l1 ∧ (l1 ++ d :: l2).dropWhile p = d :: l2 := by
  induction l1 with
  | nil => simp [List.takeWhile_cons, List.dropWhile_cons, hd]
  | cons c cs ih =>
    have hc := h1 c (by simp)
    obtain ⟨iht, ihd⟩ := ih (fun x hx => h1 x (by simp [hx]))
    simp [List.takeWhile_cons, List.dropWhile_cons, hc, iht, ihd]

theorem stripTrailingCR_of_head (l : List Char) (c : Char) (t : List Char)
    (h : l.reverse = c :: t) (hc : ¬c = '\x0d') : stripTrailingCR l = l := by
  unfold stripTrailingCR
  rw [h]
  split
  · next t2 heq =>
    rw [List.cons.injEq] at heq
    exact absurd heq.1 hc
  · rfl

theorem encodeText_reverse_head (m : TextMessage) :
    ∃ t, (encodeTextMessageChars m).reverse = '\x7d' :: t := by
  refine ⟨(intToChars m.timestamp).reverse ++ ':' :: '"' :: (timestampKey.reverse ++
    '"' :: ',' :: '"' :: ((escapeList m.content.data).reverse ++ '"' :: ':' :: '"' ::
    (contentKey.reverse ++ '"' :: ',' :: '"' :: ((escapeList m.from_.data).reverse ++
    '"' :: ':' :: '"' :: (fromKey.reverse ++ ['"', '\x7b']))))), ?_⟩
  simp [encodeTextMessageChars, List.reverse_append]

theorem readLines_single (c0 : Char) (cs0 : List Char)
    (hnl : (c0 :: cs0).all (fun c => !decide (c = '\x0a')) = true)
    (hstrip : stripTrailingCR (c0 :: cs0) = c0 :: cs0) :
    readLines ((c0 :: cs0) ++ ['\x0a']) = [c0 :: cs0] := by
  have hall : ∀ c ∈ c0 :: cs0, (fun c => !decide (c = '\x0a')) c = true :=
    List.all_eq_true.mp hnl
  obtain ⟨ht, hd⟩ := takeWhile_append_all (fun c => !decide (c = '\x0a'))
    (c0 :: cs0) '\x0a' [] hall (by decide)
  simp only [List.cons_append] at ht hd
  unfold readLines
  simp only [List.cons_append, List.length_cons, List.length_append]
  rw [readLinesAux.eq_def]
  simp only [ht, hd, hstrip]
  simp [readLinesAux]


end Parlance




namespace Parlance

/-- C1: Round-trip law for both wire codecs: every `Announce` (any nickname
string, any `u16` port) and every `Goodbye` (any nickname) JSON-encodes and
decodes back to a structurally equal message, and every `TextMessage` (any
`from`, any `content` including non-ASCII and empty, any `i64` timestamp)
survives encode followed by decode with `from`, `content` and `timestamp`
preserved exactly. -/
theorem c1_wire_roundtrip :
    (∀ (nickname : String) (tcp_port : Nat), tcp_port < 65536 →
      decodeDiscoveryChars (encodeDiscoveryChars (.announce nickname tcp_port))
        = some (.announce nickname tcp_port)) ∧
    (∀ nickname : String,
      decodeDiscoveryChars (encodeDiscoveryChars (.goodbye nickname))
        = some (.goodbye nickname)) ∧
    (∀ m : TextMessage, -(2 ^ 63) ≤ m.timestamp ∧ m.timestamp < 2 ^ 63 →
      decodeTextMessageChars (encodeTextMessageChars m) = some m) :=
  ⟨decode_encode_announce, decode_encode_goodbye, decode_encode_text⟩

/-- Witness for C1 at concrete inputs, including a non-ASCII, newline-bearing
text message. -/
theorem c1_witness :
    decodeDiscoveryChars (encodeDiscoveryChars (.announce "Böb" 9090))
        = some (.announce "Böb" 9090) ∧
    decodeDiscoveryChars (encodeDiscoveryChars (.goodbye "Alice"))
        = some (.goodbye "Alice") ∧
    decodeTextMessageChars (encodeTextMessageChars (TextMessage.mk "Böb" "héllo\nmañana" (-42)))
        = some (TextMessage.mk "Böb" "héllo\nmañana" (-42)) :=
  ⟨c1_wire_roundtrip.1 "Böb" 9090 (by decide),
   c1_wire_roundtrip.2.1 "Alice",
   c1_wire_roundtrip.2.2 (TextMessage.mk "Böb" "héllo\nmañana" (-42)) (by decide)⟩

/-- C3: when no peer in the registry snapshot carries the target nickname,
`send_message` returns `PeerNotFound` with that nickname, attempts no network
action, emits no event, and leaves the registry unchanged. -/
theorem c3_peer_not_found (env : NetEnv) (reg : PeerRegistry)
    (localNickname to_nickname content : String) (now : Int)
    (habs : ∀ p ∈ reg.get_all, ¬p.nickname = to_nickname) :
    send_message env reg localNickname to_nickname content now
      = SendOutcome.mk (Except.error (ParlanceError.peerNotFound to_nickname)) [] [] reg := by
  unfold send_message
  have hnone : (reg.get_all).find? (fun p => decide (p.nickname = to_nickname)) = none := by
    rw [List.find?_eq_none]
    intro p hp
    simp [habs p hp]
  simp [hnone]

/-- Witness for C3: sending to an unknown nickname in a nonempty registry. -/
theorem c3_witness :
    send_message envAllOk regOne "Alice" "Carol" "hi" 0
      = SendOutcome.mk (Except.error (ParlanceError.peerNotFound "Carol")) [] [] regOne :=
  c3_peer_not_found envAllOk regOne "Alice" "Carol" "hi" 0 (by decide)

/-- C5: a received Announce carrying the locally configured nickname is
discarded: whatever the sender address and announced port, the listen step
leaves the registry unchanged and inserts no record. -/
theorem c5_self_suppression (localNickname : String) (reg : PeerRegistry) (data : List Char)
    (src : SocketAddr) (now : Nat) (tcp_port : Nat)
    (hdec : decodeDiscoveryChars data = some (.announce localNickname tcp_port)) :
    listenStep localNickname reg data src now = reg := by
  unfold listenStep
  rw [hdec]
  simp

/-- Witness for C5: a concrete self-announce datagram is dropped. -/
theorem c5_witness :
    listenStep "Alice" regOne (encodeDiscoveryChars (.announce "Alice" 9000)) addrBob 7
      = regOne :=
  c5_self_suppression "Alice" regOne _ addrBob 7 9000 (by decide)

/-- C6: an Announce from another nickname, received from source address
`src`, upserts exactly the peer whose address is (src.ip, announced port),
whose nickname is the announced one, and whose id derives from that
synthesized address (the payload carries no IP that could be used). -/
theorem c6_announce_upsert (localNickname : String) (reg : PeerRegistry) (data : List Char)
    (src : SocketAddr) (now : Nat) (nickname : String) (tcp_port : Nat)
    (hdec : decodeDiscoveryChars data = some (.announce nickname tcp_port))
    (hne : ¬nickname = localNickname) :
    listenStep localNickname reg data src now
        = reg.upsert (Peer.new nickname (SocketAddr.mk src.ip tcp_port) now) now ∧
    (Peer.new nickname (SocketAddr.mk src.ip tcp_port) now).id
        = PeerId.from_addr (SocketAddr.mk src.ip tcp_port) ∧
    (Peer.new nickname (SocketAddr.mk src.ip tcp_port) now).nickname = nickname ∧
    (Peer.new nickname (SocketAddr.mk src.ip tcp_port) now).addr
        = SocketAddr.mk src.ip tcp_port := by
  refine ⟨?_, rfl, rfl, rfl⟩
  unfold listenStep
  rw [hdec]
  simp [hne]

/-- Witness for C6: a concrete foreign announce inserts the synthesized
record into an empty registry. -/
theorem c6_witness :
    listenStep "Alice" [] (encodeDiscoveryChars (.announce "Bob" 9090)) addrBob 7
      = PeerRegistry.upsert []
          (Peer.new "Bob" (SocketAddr.mk addrBob.ip 9090) 7) 7 :=
  (c6_announce_upsert "Alice" [] _ addrBob 7 "Bob" 9090 (by decide) (by decide)).1

/-- C8: the concrete announce datagram for Bob decodes to
`Announce(nickname = Bob, tcp_port = 9090)`; a JSON object whose `type` tag
is neither `announce` nor `goodbye` yields a decode error (no default value);
and on any datagram that fails to decode the listen step leaves the registry
unchanged (the loop logs and continues instead of terminating). -/
theorem c8_decode_tag :
    decodeDiscoveryChars bobDatagram.data = some (.announce "Bob" 9090) ∧
    (∀ (fields : List (List Char × Json)) (tag : List Char),
      lookupField fields typeKey = some (Json.str tag) →
      ¬tag = announceTag → ¬tag = goodbyeTag →
      decodeDiscoveryJson (Json.obj fields) = none) ∧
    (∀ (localNickname : String) (reg : PeerRegistry) (data : List Char) (src : SocketAddr)
      (now : Nat), decodeDiscoveryChars data = none →
      listenStep localNickname reg data src now = reg) := by
  refine ⟨by decide, ?_, ?_⟩
  · intro fields tag hlk h1 h2
    rw [decodeDiscoveryJson.eq_def]
    simp [hlk, h1, h2]
  · intro localNickname reg data src now hdec
    unfold listenStep
    rw [hdec]

/-- Witness for C8: an `hello`-tagged object is rejected, and the listen step
ignores an unparseable datagram. -/
theorem c8_witness :
    decodeDiscoveryJson (Json.obj [(typeKey, Json.str ['h', 'e', 'l', 'l', 'o'])]) = none ∧
    listenStep "Alice" regOne ['x'] addrBob 7 = regOne :=
  ⟨c8_decode_tag.2.1 [(typeKey, Json.str ['h', 'e', 'l', 'l', 'o'])]
      ['h', 'e', 'l', 'l', 'o'] (by rfl) (by decide) (by decide),
   c8_decode_tag.2.2 "Alice" regOne ['x'] addrBob 7 (by decide)⟩

end Parlance
namespace Parlance

theorem one_le_byteLen (cs : List Char) (h : ¬cs = []) : 1 ≤ byteLen cs := by
  cases cs with
  | nil => exact absurd rfl h
  | cons c t =>
    have h1 : 1 ≤ utf8Width c := by
      unfold utf8Width
      split_ifs <;> omega
    simp only [byteLen, List.map_cons, List.sum_cons]
    omega

theorem encodeText_shape (m : TextMessage) :
    encodeTextMessageChars m
      = '\x7b' :: '"' :: (fromKey ++ '"' :: ':' :: '"' :: (escapeList m.from_.data ++ '"' :: ',' ::
        '"' :: (contentKey ++ '"' :: ':' :: '"' :: (escapeList m.content.data ++ '"' :: ',' ::
        '"' :: (timestampKey ++ '"' :: ':' :: (intToChars m.timestamp ++ ['\x7d'])))))) := by
  unfold encodeTextMessageChars
  simp only [List.cons_append, List.append_assoc, List.nil_append]

/-- C2 counterexample: with Bob present and the connection refused,
`send_message` fails after the peer was found, yet the event channel carries
no event at all — in particular no send-error event. -/
theorem c2_counterexample_no_send_error_event :
    (send_message envRefuse regOne "Alice" "Bob" "hi" 0).result
        = Except.error (ParlanceError.network "connection refused") ∧
    (send_message envRefuse regOne "Alice" "Bob" "hi" 0).actions
        = [NetAction.connect peerBob.addr] ∧
    (send_message envRefuse regOne "Alice" "Bob" "hi" 0).events = [] :=
  ⟨rfl, rfl, rfl⟩

/-- C2 (amended): a failing `send_message` returns the error synchronously
and emits no event on the event channel; no code path ever emits a
send-error event. -/
theorem c2_send_failures_emit_no_events (env : NetEnv) (reg : PeerRegistry)
    (localNickname to_nickname content : String) (now : Int) :
    (∀ ev ∈ (send_message env reg localNickname to_nickname content now).events,
      ∀ t e, ¬ev = MessageEvent.sendError t e) ∧
    (∀ err, (send_message env reg localNickname to_nickname content now).result
        = Except.error err →
      (send_message env reg localNickname to_nickname content now).events = []) := by
  unfold send_message
  rcases hf : (PeerRegistry.get_all reg).find? (fun p => decide (p.nickname = to_nickname))
    with _ | peer
  · simp [hf]
  · rcases hc : env.connectResult peer.addr with e | u
    · simp [hf, hc]
    · rcases hw : env.writeResult with e | u
      · simp [hf, hc, hw]
      · simp [hf, hc, hw]

/-- Witness for the amended C2 at the counterexample input. -/
theorem c2_witness :
    (send_message envRefuse regOne "Alice" "Bob" "hi" 0).events = [] :=
  (c2_send_failures_emit_no_events envRefuse regOne "Alice" "Bob" "hi" 0).2
    (ParlanceError.network "connection refused") rfl

/-- C4: with unique keys, the sweep removes exactly the entries whose
elapsed time exceeds the timeout, returns exactly those records, and every
other entry survives unchanged (the remaining registry is a filter of the
original, so deletion is the only effect). -/
theorem c4_remove_timed_out_exact (reg : PeerRegistry) (timeout now : Nat)
    (hnd : (reg.map Prod.fst).Nodup) :
    (reg.remove_timed_out timeout now).1
        = (reg.filter (fun e => e.2.is_timed_out now timeout)).map Prod.snd ∧
    (reg.remove_timed_out timeout now).2
        = reg.filter (fun e => !e.2.is_timed_out now timeout) ∧
    (∀ e ∈ reg, e.2.is_timed_out now timeout = false →
      e ∈ (reg.remove_timed_out timeout now).2) := by
  have h := remove_timed_out_spec reg timeout now hnd
  refine ⟨by rw [h], by rw [h], ?_⟩
  intro e he hto
  rw [h]
  simp only [List.mem_filter]
  exact ⟨he, by simp [hto]⟩

/-- C7: upsert refreshes and overwrites on an existing identity without
changing the count, inserts otherwise, is idempotent for identical calls,
collapses same-address records to one entry, and keeps distinct-address
records distinct. -/
theorem c7_upsert_laws :
    (∀ (reg : PeerRegistry) (p : Peer) (now : Nat),
      (reg.upsert p now).get p.id
        = some (match reg.get p.id with
            | some old => Peer.mk old.id p.nickname p.addr now
            | none => p)) ∧
    (∀ (reg : PeerRegistry) (p : Peer) (now : Nat),
      reg.any (fun e => decide (e.1 = p.id)) = true →
        (reg.upsert p now).length = reg.length) ∧
    (∀ (reg : PeerRegistry) (p : Peer) (now : Nat),
      (∀ e ∈ reg, ¬e.1 = p.id) → reg.upsert p now = reg ++ [(p.id, p)]) ∧
    (∀ (reg : PeerRegistry) (p : Peer) (now : Nat), p.last_seen = now →
      (reg.upsert p now).upsert p now = reg.upsert p now) ∧
    (∀ (a a2 : SocketAddr) (n n2 : String) (t1 t2 : Nat),
      ((PeerRegistry.upsert [] (Peer.new n a t1) t1).upsert (Peer.new n2 a t2) t2).length = 1 ∧
      (¬a = a2 →
        ((PeerRegistry.upsert [] (Peer.new n a t1) t1).upsert (Peer.new n2 a2 t2) t2).length
          = 2)) := by
  refine ⟨get_upsert, ?_, upsert_eq_append, upsert_idem, ?_⟩
  · intro reg p now hex
    rw [upsert_eq_map reg p now hex, List.length_map]
  · intro a a2 n n2 t1 t2
    exact ⟨upsert_same_addr_count a n n2 t1 t2,
      fun ha => upsert_distinct_addr_count a a2 n n2 t1 t2 ha⟩

/-- Witness for C7: idempotent re-upsert, distinct addresses give two
entries, and an existing-key upsert keeps the count. -/
theorem c7_witness :
    (PeerRegistry.upsert [] (Peer.new "A" addrBob 1) 1).upsert (Peer.new "A" addrBob 1) 1
        = PeerRegistry.upsert [] (Peer.new "A" addrBob 1) 1 ∧
    ((PeerRegistry.upsert [] (Peer.new "A" addrBob 1) 1).upsert
        (Peer.new "B" (SocketAddr.mk (IpAddr.v4 10 0 0 9) 7000) 2) 2).length = 2 ∧
    (regOne.upsert (Peer.new "Bobby" addrBob 9) 9).length = regOne.length :=
  ⟨c7_upsert_laws.2.2.2.1 [] (Peer.new "A" addrBob 1) 1 rfl,
   (c7_upsert_laws.2.2.2.2 addrBob (SocketAddr.mk (IpAddr.v4 10 0 0 9) 7000) "A" "B" 1 2).2
     (by decide),
   c7_upsert_laws.2.1 regOne (Peer.new "Bobby" addrBob 9) 9 (by decide)⟩

/-- Witness for C4: Bob (seen at 5, elapsed 5) survives a sweep with
timeout 6 at instant 10; Old (seen at 0, elapsed 10) is removed. -/
theorem c4_witness :
    (PeerRegistry.remove_timed_out regTwo 6 10).1
        = (regTwo.filter (fun e => e.2.is_timed_out 10 6)).map Prod.snd ∧
    (PeerRegistry.remove_timed_out regTwo 6 10).2
        = regTwo.filter (fun e => !e.2.is_timed_out 10 6) :=
  ⟨(c4_remove_timed_out_exact regTwo 6 10 (by decide)).1,
   (c4_remove_timed_out_exact regTwo 6 10 (by decide)).2.1⟩

end Parlance
namespace Parlance

/-- C9 counterexample: seventeen two-byte characters satisfy every rule of
the claim as stated (1–32 characters, no control characters, no newline or
carriage return, not whitespace-only, no leading or trailing whitespace),
yet validation rejects the string: the length limit counts UTF-8 bytes
(34 here), not characters. -/
theorem c9_counterexample_chars_vs_bytes :
    umlautNickname.data.length = 17 ∧
    (1 ≤ umlautNickname.data.length ∧ umlautNickname.data.length ≤ 32) ∧
    (∀ c ∈ umlautNickname.data, rustIsControl c = false) ∧
    (∀ c ∈ umlautNickname.data, ¬c = '\x0a' ∧ ¬c = '\x0d') ∧
    rustTrim umlautNickname.data = umlautNickname.data ∧
    ¬rustTrim umlautNickname.data = [] ∧
    NicknameValidator.validate umlautNickname
      = Except.error NicknameValidationError.tooLong :=
  ⟨rfl, by decide, by decide, by decide, rfl, by decide, rfl⟩

/-- C9 (amended): validation accepts exactly the strings of 1–32 UTF-8
bytes with no control characters, no newline or carriage return, that are
not whitespace-only and carry no leading or trailing whitespace. -/
theorem c9_validate_bytes_characterization (s : String) :
    NicknameValidator.validate s = Except.ok () ↔
      (1 ≤ byteLen s.data ∧ byteLen s.data ≤ 32
        ∧ (∀ c ∈ s.data, rustIsControl c = false)
        ∧ (∀ c ∈ s.data, ¬c = '\x0a' ∧ ¬c = '\x0d')
        ∧ ¬rustTrim s.data = []
        ∧ rustTrim s.data = s.data) := by
  unfold NicknameValidator.validate
  constructor
  · intro h
    by_cases h1 : s.data.isEmpty = true
    · rw [if_pos h1] at h; exact absurd h (by simp)
    rw [if_neg h1] at h
    by_cases h2 : byteLen s.data < NicknameValidator.MIN_LENGTH
    · rw [if_pos h2] at h; exact absurd h (by simp)
    rw [if_neg h2] at h
    by_cases h3 : byteLen s.data > NicknameValidator.MAX_LENGTH
    · rw [if_pos h3] at h; exact absurd h (by simp)
    rw [if_neg h3] at h
    by_cases h4 : rustTrim s.data = []
    · rw [if_pos h4] at h; exact absurd h (by simp)
    rw [if_neg h4] at h
    by_cases h5 : ¬s.data = rustTrim s.data
    · rw [if_pos h5] at h; exact absurd h (by simp)
    rw [if_neg h5] at h
    by_cases h6 : s.data.any (fun c => decide (c = '\x0a' ∨ c = '\x0d')) = true
    · rw [if_pos h6] at h; exact absurd h (by simp)
    rw [if_neg h6] at h
    by_cases h7 : s.data.any rustIsControl = true
    · rw [if_pos h7] at h; exact absurd h (by simp)
    refine ⟨one_le_byteLen s.data ?_, ?_, ?_, ?_, h4, ?_⟩
    · intro hd
      exact h1 (by simp [hd])
    · unfold NicknameValidator.MAX_LENGTH at h3
      omega
    · intro c hc
      by_contra hcc
      exact h7 (List.any_eq_true.mpr ⟨c, hc, by simpa using hcc⟩)
    · intro c hc
      constructor
      · intro heq
        exact h6 (List.any_eq_true.mpr ⟨c, hc, by simp [heq]⟩)
      · intro heq
        exact h6 (List.any_eq_true.mpr ⟨c, hc, by simp [heq]⟩)
    · exact (not_not.mp h5).symm
  · rintro ⟨hb1, hb2, hctl, hnl, htr, hte⟩
    have hne : ¬s.data = [] := by
      intro hd
      rw [hd] at hb1
      simp [byteLen] at hb1
    rw [if_neg (by intro hie; exact hne (by simpa using hie))]
    rw [if_neg (by unfold NicknameValidator.MIN_LENGTH; omega)]
    rw [if_neg (by unfold NicknameValidator.MAX_LENGTH; omega)]
    rw [if_neg htr]
    rw [if_neg (by rw [hte]; simp)]
    rw [if_neg ?hnl2, if_neg ?hctl2]
    case hnl2 =>
      simp only [List.any_eq_true, not_exists]
      intro c
      rintro ⟨hc, hcd⟩
      rcases of_decide_eq_true hcd with hx | hx
      · exact (hnl c hc).1 hx
      · exact (hnl c hc).2 hx
    case hctl2 =>
      simp only [List.any_eq_true, not_exists]
      intro c
      rintro ⟨hc, hcd⟩
      rw [hctl c hc] at hcd
      exact Bool.false_ne_true hcd

end Parlance
namespace Parlance

/-- C10: the encoded line for any TextMessage — even with newline, carriage
return, or other control characters in `from` or `content` — contains no
literal newline byte; appending the single newline delimiter therefore
frames exactly one line, and the line reader recovers exactly the encoded
message, which decodes back to the original. -/
theorem c10_framing_soundness (m : TextMessage)
    (hts : -(2 ^ 63) ≤ m.timestamp ∧ m.timestamp < 2 ^ 63) :
    (∀ c ∈ encodeTextMessageChars m, ¬c = '\x0a') ∧
    readLines (encodeTextMessageChars m ++ ['\x0a']) = [encodeTextMessageChars m] ∧
    decodeTextMessageChars (encodeTextMessageChars m) = some m := by
  have hall := encodeText_noNL m
  have hmem : ∀ c ∈ encodeTextMessageChars m, ¬c = '\x0a' := by
    intro c hc
    have hx := List.all_eq_true.mp hall c hc
    simpa using hx
  refine ⟨hmem, ?_, decode_encode_text m hts⟩
  obtain ⟨t, hrev⟩ := encodeText_reverse_head m
  have hstrip := stripTrailingCR_of_head _ _ _ hrev (by decide)
  rw [encodeText_shape m] at hall hstrip ⊢
  exact readLines_single _ _ hall hstrip

/-- Witness for C10 on a message whose fields contain newline and carriage
return characters. -/
theorem c10_witness :
    readLines (encodeTextMessageChars (TextMessage.mk "A\nB" "x\ry" 123) ++ ['\x0a'])
        = [encodeTextMessageChars (TextMessage.mk "A\nB" "x\ry" 123)] ∧
    decodeTextMessageChars (encodeTextMessageChars (TextMessage.mk "A\nB" "x\ry" 123))
        = some (TextMessage.mk "A\nB" "x\ry" 123) :=
  ⟨(c10_framing_soundness (TextMessage.mk "A\nB" "x\ry" 123) (by decide)).2.1,
   (c10_framing_soundness (TextMessage.mk "A\nB" "x\ry" 123) (by decide)).2.2⟩

end Parlance

namespace Parlance

/-- Witness for the amended C9: a plain ASCII nickname is accepted via the
byte-length characterization. -/
theorem c9_witness : NicknameValidator.validate "alice" = Except.ok () :=
  (c9_validate_bytes_characterization "alice").mpr (by decide)

end Parlance
